import Mathlib

/-!
Verification of the regexp parser (`src/regexp.rs`).

The parser works on the byte slice of the input string (`string.as_bytes()`),
threading an explicit cursor (`index`) through a family of mutually recursive
functions `parse_or`, `parse_and`, `parse_postfix`, `parse_atom`, with
`parse_number` as a helper.  We embed bytes as `Nat` (a Rust `u8`, always
`< 256`; `is_ascii` means `< 128`), the input as `List Nat`, and machine
`usize` arithmetic as `Nat` with the explicit bound `usizeMax = 2 ^ 64 - 1`
where overflow matters (`str::parse::<usize>` fails above it).

The Rust functions recurse on the structure of the input; in Lean the mutual
recursion is made structural through an explicit fuel parameter, decremented
at every mutual call.  The fuel `parseFuel` handed to the parser by
`Re.parse_regexp` is proven sufficient (`parse_fuel_sufficient`,
`parse_regexp_fuel_ok`), so the fuel-exhaustion branch of `Re.parse_regexp`
is dead code.
-/

/-- The error kinds of `ReErrorKind` in the source. -/
inductive ReErrorKind where
  | NonAsciiChar
  | BadSplit
  | OutOfRange
  | InvalidChar
  | InvalidInt
  | InvalidRange
deriving DecidableEq, Repr

/-- Error info `ReErrorInfo`: a byte offset into the input plus a message.
The Rust field `at` is a Lean keyword, hence spelled `at'`. -/
structure ReErrorInfo where
  at' : Nat
  msg : String
deriving DecidableEq, Repr

/-- Alias `pub type ReError = (ReErrorKind, ReErrorInfo);` of the source. -/
def ReError := ReErrorKind × ReErrorInfo

instance : DecidableEq ReError := instDecidableEqProd

/-- The AST type `Re`.  The Rust `Rc<Re>` children are plain children here:
sharing is a memory optimization only, invisible to values. -/
inductive Re where
  | Char (c : Char)
  | Or (l r : Re)
  | And (l r : Re)
  | Kleen (inner : Re)
  | OneOrMore (inner : Re)
  | Repeat (inner : Re) (min max : Nat)
  | AnyChar
deriving DecidableEq, Repr

/-- Largest value of Rust's `usize` on the 64-bit target. -/
def usizeMax : Nat := 2 ^ 64 - 1

/-- Helper for `first_non_ascii`: the loop `for i in 0..string.len()`,
carrying the index of the head of the remaining list.  `u8::is_ascii` is
`byte < 128`. -/
def first_non_ascii_from : List Nat → Nat → Option Nat
  | [], _ => none
  | b :: rest, i => if b < 128 then first_non_ascii_from rest (i + 1) else some i

/-- Function `first_non_ascii`: index of the first non-ASCII byte, if any. -/
def first_non_ascii (string : List Nat) : Option Nat :=
  first_non_ascii_from string 0

/-- Maximal prefix of ASCII digit bytes of a list. -/
def numRunAux : List Nat → List Nat
  | [] => []
  | b :: rest => if 48 ≤ b ∧ b ≤ 57 then b :: numRunAux rest else []

/-- Digit-run collection inside `parse_number`: the maximal run of ASCII digit
bytes starting at `index` (the Rust code pushes them onto a `String`); the
loop's final `current_index` is `index + (numRun string index).length`. -/
def numRun (string : List Nat) (index : Nat) : List Nat :=
  numRunAux (string.drop index)

/-- Value of a big-endian ASCII-digit byte list, as `current_string.parse::<usize>()`
computes it. -/
def decValue (ds : List Nat) : Nat :=
  ds.foldl (fun a d => a * 10 + (d - 48)) 0

/-- Function `parse_number`: maximal digit run at `index`; `None` when the run
is empty or its value does not fit in `usize` (these are the `Err` cases of
`current_string.parse::<usize>()`). -/
def parse_number (string : List Nat) (index : Nat) : Option (Nat × Nat) :=
  if numRun string index = [] then none
  else if usizeMax < decValue (numRun string index) then none
  else some (decValue (numRun string index), index + (numRun string index).length)

mutual

/-- Function `parse_or` (grammar level: alternation).  Fuel is the embedding's
termination artifact; every mutual call decrements it. -/
def parse_or (fuel : Nat) (string : List Nat) (index : Nat) :
    Option (Except ReError (Re × Nat)) :=
  match fuel with
  | 0 => none
  | fuel + 1 =>
    match parse_and fuel string index with
    | none => none
    | some (.error e) => some (.error e)
    | some (.ok (left, new_index)) =>
      if new_index < string.length then
        if string.getD new_index 0 = 124 then  -- '|'
          match parse_or fuel string (new_index + 1) with
          | none => none
          | some (.error e) => some (.error e)
          | some (.ok (right, end_index)) => some (.ok (.Or left right, end_index))
        else if string.getD new_index 0 = 41 then  -- ')'
          some (.ok (left, new_index + 1))
        else
          some (.ok (left, new_index))
      else
        some (.ok (left, new_index))

termination_by structural fuel

/-- Function `parse_and` (grammar level: concatenation). -/
def parse_and (fuel : Nat) (string : List Nat) (index : Nat) :
    Option (Except ReError (Re × Nat)) :=
  match fuel with
  | 0 => none
  | fuel + 1 =>
    match parse_postfix fuel string index with
    | none => none
    | some (.error e) => some (.error e)
    | some (.ok (left, after_left_id)) =>
      -- End of string, do not match more
      if string.length ≤ after_left_id then some (.ok (left, after_left_id))
      -- We have reached a closing parenthesis so we return the reg
      else if string.getD after_left_id 0 = 41 then  -- ')'
        some (.ok (left, after_left_id + 1))
      else if string.getD after_left_id 0 = 124 then  -- '|'
        some (.ok (left, after_left_id))
      else
        -- Find the right reg
        match parse_or fuel string after_left_id with
        | none => none
        | some (.error e) => some (.error e)
        | some (.ok (right, after_right_id)) =>
          some (.ok (.And left right, after_right_id))

termination_by structural fuel

/-- Function `parse_postfix` (grammar level: `*`, `+`, `{a,b}` suffixes). -/
def parse_postfix (fuel : Nat) (string : List Nat) (index : Nat) :
    Option (Except ReError (Re × Nat)) :=
  match fuel with
  | 0 => none
  | fuel + 1 =>
    match parse_atom fuel string index with
    | none => none
    | some (.error e) => some (.error e)
    | some (.ok (reg, after_atom_id)) =>
      if string.length ≤ after_atom_id then some (.ok (reg, after_atom_id))
      else if string.getD after_atom_id 0 = 42 then  -- '*'
        some (.ok (.Kleen reg, after_atom_id + 1))
      else if string.getD after_atom_id 0 = 43 then  -- '+'
        some (.ok (.OneOrMore reg, after_atom_id + 1))
      else if string.getD after_atom_id 0 = 123 then  -- left brace
        match parse_number string (after_atom_id + 1) with
        | none => some (.error (.InvalidInt,
            ⟨after_atom_id + 1, "Expected a positive integer"⟩))
        | some (left, after_left_id) =>
          if string.length ≤ after_left_id ∨ string.getD after_left_id 0 ≠ 44 then  -- ','
            some (.error (.OutOfRange,
              ⟨after_atom_id, "Expected a ',' for postfix [reg]\x7ba,b\x7d"⟩))
          else
            match parse_number string (after_left_id + 1) with
            | none => some (.error (.InvalidInt,
                ⟨after_left_id, "Expected a positive integer"⟩))
            | some (right, after_right_id) =>
              if right < left then
                some (.error (.InvalidRange,
                  ⟨after_atom_id, "left number should be lower than or equal to the right one"⟩))
              else if string.length ≤ after_right_id ∨ string.getD after_right_id 0 ≠ 125 then  -- right brace
                some (.error (.InvalidChar, ⟨after_left_id, "Expected a '\x7d'"⟩))
              else
                some (.ok (.Repeat reg left right, after_right_id + 1))
      else
        some (.ok (reg, after_atom_id))

termination_by structural fuel

/-- Function `parse_atom` (grammar level: literal, `.`, parenthesized group). -/
def parse_atom (fuel : Nat) (string : List Nat) (index : Nat) :
    Option (Except ReError (Re × Nat)) :=
  match fuel with
  | 0 => none
  | fuel + 1 =>
    -- If we try to find an atom out of range, there must be an issue
    if string.length ≤ index then
      some (.error (.OutOfRange, ⟨index, "Expected an atom"⟩))
    else if (97 ≤ string.getD index 0 ∧ string.getD index 0 ≤ 122)
        ∨ (65 ≤ string.getD index 0 ∧ string.getD index 0 ≤ 90)
        ∨ (48 ≤ string.getD index 0 ∧ string.getD index 0 ≤ 57) then
      some (.ok (.Char (Char.ofNat (string.getD index 0)), index + 1))
    else if string.getD index 0 = 46 then  -- '.'
      some (.ok (.AnyChar, index + 1))
    else if string.getD index 0 = 40 then  -- '('
      parse_or fuel string (index + 1)
    else
      some (.error (.InvalidChar, ⟨index, "Expected a char in [a-zA-Z0-9]"⟩))
termination_by structural fuel

end

/-- Fuel that `Re.parse_regexp` hands to `parse_or`; proven sufficient below. -/
def parseFuel (string : List Nat) : Nat := 4 * string.length + 4

/-- Entry point `Re::parse_regexp`, at the byte level (`string.as_bytes()` is
the argument here).  The fuel-exhaustion branch is unreachable by
`parse_regexp_fuel_ok`. -/
def Re.parse_regexp (string : List Nat) : Except ReError Re :=
  match first_non_ascii string with
  | some index => .error (.NonAsciiChar, ⟨index, ""⟩)
  | none =>
    match parse_or (parseFuel string) string 0 with
    | some (.ok (reg, _)) => .ok reg
    | some (.error err) => .error err
    | none => .error (.OutOfRange, ⟨0, ""⟩)

/-- Method `Re::is_equal`: deep structural comparison. -/
def Re.is_equal : Re → Re → Bool
  | .Char c1, .Char c2 => c1 = c2
  | .Char _, _ => false
  | .Kleen c1, .Kleen c2 => c1.is_equal c2
  | .Kleen _, _ => false
  | .Or c11 c12, .Or c21 c22 => c11.is_equal c21 && c12.is_equal c22
  | .Or _ _, _ => false
  | .And c11 c12, .And c21 c22 => c11.is_equal c21 && c12.is_equal c22
  | .And _ _, _ => false
  | .OneOrMore c1, .OneOrMore c2 => c1.is_equal c2
  | .OneOrMore _, _ => false
  | .AnyChar, .AnyChar => true
  | .AnyChar, _ => false
  | .Repeat c1 a1 b1, .Repeat c2 a2 b2 => c1.is_equal c2 && a1 = a2 && b1 = b2
  | .Repeat _ _ _, _ => false

/-- Big-endian decimal digit bytes of a positive `n`; the fuel argument
(`n` itself suffices) makes the recursion structural. -/
def natToDecBytesAux : Nat → Nat → List Nat
  | 0, _ => []
  | fuel + 1, n => if n = 0 then [] else natToDecBytesAux fuel (n / 10) ++ [n % 10 + 48]

/-- Decimal digits of `n` as ASCII bytes, big-endian — the bytes
`print!("{}", n)` emits. -/
def natToDecBytes (n : Nat) : List Nat :=
  if n = 0 then [48] else natToDecBytesAux n n

/-- Method `Re::debug_print`, modeled as the byte sequence written to stdout. -/
def Re.debug_print : Re → List Nat
  | .Char c => [c.toNat]
  | .Kleen c => 40 :: (c.debug_print ++ [41, 42])          -- ( inner )*
  | .Or c1 c2 => 40 :: (c1.debug_print ++ 124 :: c2.debug_print ++ [41])
  | .And c1 c2 => 40 :: (c1.debug_print ++ c2.debug_print ++ [41])
  | .OneOrMore c => 40 :: (c.debug_print ++ [41, 43])      -- ( inner )+
  | .AnyChar => [46]
  | .Repeat c a b =>
      40 :: (c.debug_print ++ 41 :: 123 :: (natToDecBytes a ++ 44 :: natToDecBytes b ++ [125]))

/-- Bytes of an ASCII string literal (for ASCII text, UTF-8 bytes coincide
with the code points). -/
def strBytes (s : String) : List Nat := s.data.map Char.toNat

/-- Whether every `Repeat` node in the tree has `min ≤ max`. -/
def Re.repeat_wf : Re → Bool
  | .Char _ => true
  | .AnyChar => true
  | .Kleen c => c.repeat_wf
  | .OneOrMore c => c.repeat_wf
  | .Or l r => l.repeat_wf && r.repeat_wf
  | .And l r => l.repeat_wf && r.repeat_wf
  | .Repeat c a b => (decide (a ≤ b)) && c.repeat_wf

/-- Print, reparse with the parser, print again (`none` when the reparse
fails). -/
def Re.reprint (r : Re) : Option (List Nat) :=
  match Re.parse_regexp r.debug_print with
  | .ok q => some q.debug_print
  | .error _ => none

/-! ### Basic facts about `parse_number` -/

theorem parse_number_lt {s : List Nat} {i v e : Nat}
    (h : parse_number s i = some (v, e)) : i < e := by
  unfold parse_number at h
  split at h
  · exact absurd h (by simp)
  · split at h
    · exact absurd h (by simp)
    · rename_i hne _
      have hlen : numRun s i ≠ [] := hne
      have : 1 ≤ (numRun s i).length := by
        cases hR : numRun s i with
        | nil => exact absurd hR hne
        | cons a l => simp
      simp only [Option.some.injEq, Prod.mk.injEq] at h
      omega

/-! ### Progress: a successful parse always advances the cursor -/

theorem parse_progress (fuel : Nat) :
    (∀ s i r j, parse_or fuel s i = some (.ok (r, j)) → i < j) ∧
    (∀ s i r j, parse_and fuel s i = some (.ok (r, j)) → i < j) ∧
    (∀ s i r j, parse_postfix fuel s i = some (.ok (r, j)) → i < j) ∧
    (∀ s i r j, parse_atom fuel s i = some (.ok (r, j)) → i < j) := by
  induction fuel with
  | zero =>
    refine ⟨?_, ?_, ?_, ?_⟩ <;> intro s i r j h <;>
      simp [parse_or, parse_and, parse_postfix, parse_atom] at h
  | succ n ih =>
    obtain ⟨ihOr, ihAnd, ihPost, ihAtom⟩ := ih
    refine ⟨?_, ?_, ?_, ?_⟩
    · -- parse_or
      intro s i r j h
      simp only [parse_or] at h
      cases hA : parse_and n s i with
      | none => rw [hA] at h; simp at h
      | some v =>
        rw [hA] at h
        cases v with
        | error e => simp at h
        | ok p =>
          obtain ⟨left, ni⟩ := p
          have hni : i < ni := ihAnd s i left ni hA
          simp only at h
          split at h
          · split at h
            · cases hB : parse_or n s (ni + 1) with
              | none => rw [hB] at h; simp at h
              | some w =>
                rw [hB] at h
                cases w with
                | error e => simp at h
                | ok q =>
                  obtain ⟨right, ei⟩ := q
                  have := ihOr s (ni + 1) right ei hB
                  simp only [Option.some.injEq, Except.ok.injEq, Prod.mk.injEq] at h
                  omega
            · split at h <;>
                (simp only [Option.some.injEq, Except.ok.injEq, Prod.mk.injEq] at h; omega)
          · simp only [Option.some.injEq, Except.ok.injEq, Prod.mk.injEq] at h; omega
    · -- parse_and
      intro s i r j h
      simp only [parse_and] at h
      cases hA : parse_postfix n s i with
      | none => rw [hA] at h; simp at h
      | some v =>
        rw [hA] at h
        cases v with
        | error e => simp at h
        | ok p =>
          obtain ⟨left, ni⟩ := p
          have hni : i < ni := ihPost s i left ni hA
          simp only at h
          split at h
          · simp only [Option.some.injEq, Except.ok.injEq, Prod.mk.injEq] at h; omega
          · split at h
            · simp only [Option.some.injEq, Except.ok.injEq, Prod.mk.injEq] at h; omega
            · split at h
              · simp only [Option.some.injEq, Except.ok.injEq, Prod.mk.injEq] at h; omega
              · cases hB : parse_or n s ni with
                | none => rw [hB] at h; simp at h
                | some w =>
                  rw [hB] at h
                  cases w with
                  | error e => simp at h
                  | ok q =>
                    obtain ⟨right, ei⟩ := q
                    have := ihOr s ni right ei hB
                    simp only [Option.some.injEq, Except.ok.injEq, Prod.mk.injEq] at h
                    omega
    · -- parse_postfix
      intro s i r j h
      simp only [ parse_postfix] at h
      cases hA : parse_atom n s i with
      | none => rw [hA] at h; simp at h
      | some v =>
        rw [hA] at h
        cases v with
        | error e => simp at h
        | ok p =>
          obtain ⟨reg, ni⟩ := p
          have hni : i < ni := ihAtom s i reg ni hA
          simp only at h
          split at h
          · simp only [Option.some.injEq, Except.ok.injEq, Prod.mk.injEq] at h; omega
          · split at h
            · simp only [Option.some.injEq, Except.ok.injEq, Prod.mk.injEq] at h; omega
            · split at h
              · simp only [Option.some.injEq, Except.ok.injEq, Prod.mk.injEq] at h; omega
              · split at h
                · cases hN : parse_number s (ni + 1) with
                  | none => rw [hN] at h; simp at h
                  | some q =>
                    rw [hN] at h
                    obtain ⟨left, al⟩ := q
                    have hal : ni + 1 < al := parse_number_lt hN
                    simp only at h
                    split at h
                    · simp at h
                    · cases hM : parse_number s (al + 1) with
                      | none => rw [hM] at h; simp at h
                      | some q2 =>
                        rw [hM] at h
                        obtain ⟨right, ar⟩ := q2
                        have har : al + 1 < ar := parse_number_lt hM
                        simp only at h
                        split at h
                        · simp at h
                        · split at h
                          · simp at h
                          · simp only [Option.some.injEq, Except.ok.injEq,
                              Prod.mk.injEq] at h
                            omega
                · simp only [Option.some.injEq, Except.ok.injEq, Prod.mk.injEq] at h; omega
    · -- parse_atom
      intro s i r j h
      simp only [parse_atom] at h
      split at h
      · simp at h
      · split at h
        · simp only [Option.some.injEq, Except.ok.injEq, Prod.mk.injEq] at h; omega
        · split at h
          · simp only [Option.some.injEq, Except.ok.injEq, Prod.mk.injEq] at h; omega
          · split at h
            · have := ihOr s (i + 1) r j h; omega
            · simp at h

/-! ### Fuel sufficiency: `parseFuel` never exhausts -/

theorem parse_fuel_sufficient (fuel : Nat) :
    (∀ s i, 4 * (s.length - i) + 4 ≤ fuel → parse_or fuel s i ≠ none) ∧
    (∀ s i, 4 * (s.length - i) + 3 ≤ fuel → parse_and fuel s i ≠ none) ∧
    (∀ s i, 4 * (s.length - i) + 2 ≤ fuel → parse_postfix fuel s i ≠ none) ∧
    (∀ s i, 4 * (s.length - i) + 1 ≤ fuel → parse_atom fuel s i ≠ none) := by
  induction fuel with
  | zero => refine ⟨?_, ?_, ?_, ?_⟩ <;> intro s i hf <;> omega
  | succ n ih =>
    obtain ⟨ihOr, ihAnd, ihPost, ihAtom⟩ := ih
    refine ⟨?_, ?_, ?_, ?_⟩
    · -- parse_or
      intro s i hf
      simp only [parse_or]
      cases hA : parse_and n s i with
      | none => exact absurd hA (ihAnd s i (by omega))
      | some v =>
        cases v with
        | error e => simp
        | ok p =>
          obtain ⟨left, ni⟩ := p
          have hni : i < ni := (parse_progress n).2.1 s i left ni hA
          simp only
          split
          · split
            · rename_i hlt hbar
              cases hB : parse_or n s (ni + 1) with
              | none => exact absurd hB (ihOr s (ni + 1) (by omega))
              | some w => cases w with
                | error e => simp
                | ok q => obtain ⟨right, ei⟩ := q; simp
            · split <;> simp
          · simp
    · -- parse_and
      intro s i hf
      simp only [parse_and]
      cases hA : parse_postfix n s i with
      | none => exact absurd hA (ihPost s i (by omega))
      | some v =>
        cases v with
        | error e => simp
        | ok p =>
          obtain ⟨left, ni⟩ := p
          have hni : i < ni := (parse_progress n).2.2.1 s i left ni hA
          simp only
          split
          · simp
          · split
            · simp
            · split
              · simp
              · rename_i hlen _ _
                cases hB : parse_or n s ni with
                | none => exact absurd hB (ihOr s ni (by omega))
                | some w => cases w with
                  | error e => simp
                  | ok q => obtain ⟨right, ei⟩ := q; simp
    · -- parse_postfix
      intro s i hf
      simp only [ parse_postfix]
      cases hA : parse_atom n s i with
      | none => exact absurd hA (ihAtom s i (by omega))
      | some v =>
        cases v with
        | error e => simp
        | ok p =>
          obtain ⟨reg, ni⟩ := p
          simp only
          split
          · simp
          · split
            · simp
            · split
              · simp
              · split
                · cases hN : parse_number s (ni + 1) with
                  | none => simp
                  | some q =>
                    obtain ⟨left, al⟩ := q
                    simp only
                    split
                    · simp
                    · cases hM : parse_number s (al + 1) with
                      | none => simp
                      | some q2 =>
                        obtain ⟨right, ar⟩ := q2
                        simp only
                        split
                        · simp
                        · split <;> simp
                · simp
    · -- parse_atom
      intro s i hf
      simp only [parse_atom]
      split
      · simp
      · split
        · simp
        · split
          · simp
          · split
            · rename_i hlen _ _ _
              exact ihOr s (i + 1) (by omega)
            · simp

/-! ### No parse function ever constructs a `BadSplit` error -/

theorem parse_no_BadSplit (fuel : Nat) :
    (∀ s i e, parse_or fuel s i = some (.error e) → e.1 ≠ .BadSplit) ∧
    (∀ s i e, parse_and fuel s i = some (.error e) → e.1 ≠ .BadSplit) ∧
    (∀ s i e, parse_postfix fuel s i = some (.error e) → e.1 ≠ .BadSplit) ∧
    (∀ s i e, parse_atom fuel s i = some (.error e) → e.1 ≠ .BadSplit) := by
  induction fuel with
  | zero =>
    refine ⟨?_, ?_, ?_, ?_⟩ <;> intro s i e h <;>
      simp [parse_or, parse_and, parse_postfix, parse_atom] at h
  | succ n ih =>
    obtain ⟨ihOr, ihAnd, ihPost, ihAtom⟩ := ih
    refine ⟨?_, ?_, ?_, ?_⟩
    · -- parse_or
      intro s i e h
      simp only [parse_or] at h
      cases hA : parse_and n s i with
      | none => rw [hA] at h; simp at h
      | some v =>
        rw [hA] at h
        cases v with
        | error e2 =>
          simp only [Option.some.injEq, Except.error.injEq] at h
          exact h ▸ ihAnd s i e2 hA
        | ok p =>
          obtain ⟨left, ni⟩ := p
          simp only at h
          split at h
          · split at h
            · cases hB : parse_or n s (ni + 1) with
              | none => rw [hB] at h; simp at h
              | some w =>
                rw [hB] at h
                cases w with
                | error e2 =>
                  simp only [Option.some.injEq, Except.error.injEq] at h
                  exact h ▸ ihOr s (ni + 1) e2 hB
                | ok q => obtain ⟨right, ei⟩ := q; simp at h
            · split at h <;> simp at h
          · simp at h
    · -- parse_and
      intro s i e h
      simp only [parse_and] at h
      cases hA : parse_postfix n s i with
      | none => rw [hA] at h; simp at h
      | some v =>
        rw [hA] at h
        cases v with
        | error e2 =>
          simp only [Option.some.injEq, Except.error.injEq] at h
          exact h ▸ ihPost s i e2 hA
        | ok p =>
          obtain ⟨left, ni⟩ := p
          simp only at h
          split at h
          · simp at h
          · split at h
            · simp at h
            · split at h
              · simp at h
              · cases hB : parse_or n s ni with
                | none => rw [hB] at h; simp at h
                | some w =>
                  rw [hB] at h
                  cases w with
                  | error e2 =>
                    simp only [Option.some.injEq, Except.error.injEq] at h
                    exact h ▸ ihOr s ni e2 hB
                  | ok q => obtain ⟨right, ei⟩ := q; simp at h
    · -- parse_postfix
      intro s i e h
      simp only [ parse_postfix] at h
      cases hA : parse_atom n s i with
      | none => rw [hA] at h; simp at h
      | some v =>
        rw [hA] at h
        cases v with
        | error e2 =>
          simp only [Option.some.injEq, Except.error.injEq] at h
          exact h ▸ ihAtom s i e2 hA
        | ok p =>
          obtain ⟨reg, ni⟩ := p
          simp only at h
          split at h
          · simp at h
          · split at h
            · simp at h
            · split at h
              · simp at h
              · split at h
                · cases hN : parse_number s (ni + 1) with
                  | none =>
                    rw [hN] at h
                    simp only [Option.some.injEq, Except.error.injEq] at h
                    subst h; simp
                  | some q =>
                    rw [hN] at h
                    obtain ⟨left, al⟩ := q
                    simp only at h
                    split at h
                    · simp only [Option.some.injEq, Except.error.injEq] at h
                      subst h; simp
                    · cases hM : parse_number s (al + 1) with
                      | none =>
                        rw [hM] at h
                        simp only [Option.some.injEq, Except.error.injEq] at h
                        subst h; simp
                      | some q2 =>
                        rw [hM] at h
                        obtain ⟨right, ar⟩ := q2
                        simp only at h
                        split at h
                        · simp only [Option.some.injEq, Except.error.injEq] at h
                          subst h; simp
                        · split at h
                          · simp only [Option.some.injEq, Except.error.injEq] at h
                            subst h; simp
                          · simp at h
                · simp at h
    · -- parse_atom
      intro s i e h
      simp only [parse_atom] at h
      split at h
      · simp only [Option.some.injEq, Except.error.injEq] at h
        subst h; simp
      · split at h
        · simp at h
        · split at h
          · simp at h
          · split at h
            · exact ihOr s (i + 1) e h
            · simp only [Option.some.injEq, Except.error.injEq] at h
              subst h; simp

/-! ### Every successfully parsed tree satisfies the `Repeat` invariant -/

theorem parse_repeat_wf (fuel : Nat) :
    (∀ s i r j, parse_or fuel s i = some (.ok (r, j)) → r.repeat_wf = true) ∧
    (∀ s i r j, parse_and fuel s i = some (.ok (r, j)) → r.repeat_wf = true) ∧
    (∀ s i r j, parse_postfix fuel s i = some (.ok (r, j)) → r.repeat_wf = true) ∧
    (∀ s i r j, parse_atom fuel s i = some (.ok (r, j)) → r.repeat_wf = true) := by
  induction fuel with
  | zero =>
    refine ⟨?_, ?_, ?_, ?_⟩ <;> intro s i r j h <;>
      simp [parse_or, parse_and, parse_postfix, parse_atom] at h
  | succ n ih =>
    obtain ⟨ihOr, ihAnd, ihPost, ihAtom⟩ := ih
    refine ⟨?_, ?_, ?_, ?_⟩
    · -- parse_or
      intro s i r j h
      simp only [parse_or] at h
      cases hA : parse_and n s i with
      | none => rw [hA] at h; simp at h
      | some v =>
        rw [hA] at h
        cases v with
        | error e => simp at h
        | ok p =>
          obtain ⟨left, ni⟩ := p
          have hwl : left.repeat_wf = true := ihAnd s i left ni hA
          simp only at h
          split at h
          · split at h
            · cases hB : parse_or n s (ni + 1) with
              | none => rw [hB] at h; simp at h
              | some w =>
                rw [hB] at h
                cases w with
                | error e => simp at h
                | ok q =>
                  obtain ⟨right, ei⟩ := q
                  have hwr : right.repeat_wf = true := ihOr s (ni + 1) right ei hB
                  simp only [Option.some.injEq, Except.ok.injEq, Prod.mk.injEq] at h
                  rw [← h.1]
                  simp [Re.repeat_wf, hwl, hwr]
            · split at h <;>
                (simp only [Option.some.injEq, Except.ok.injEq, Prod.mk.injEq] at h;
                  rw [← h.1]; exact hwl)
          · simp only [Option.some.injEq, Except.ok.injEq, Prod.mk.injEq] at h
            rw [← h.1]; exact hwl
    · -- parse_and
      intro s i r j h
      simp only [parse_and] at h
      cases hA : parse_postfix n s i with
      | none => rw [hA] at h; simp at h
      | some v =>
        rw [hA] at h
        cases v with
        | error e => simp at h
        | ok p =>
          obtain ⟨left, ni⟩ := p
          have hwl : left.repeat_wf = true := ihPost s i left ni hA
          simp only at h
          split at h
          · simp only [Option.some.injEq, Except.ok.injEq, Prod.mk.injEq] at h
            rw [← h.1]; exact hwl
          · split at h
            · simp only [Option.some.injEq, Except.ok.injEq, Prod.mk.injEq] at h
              rw [← h.1]; exact hwl
            · split at h
              · simp only [Option.some.injEq, Except.ok.injEq, Prod.mk.injEq] at h
                rw [← h.1]; exact hwl
              · cases hB : parse_or n s ni with
                | none => rw [hB] at h; simp at h
                | some w =>
                  rw [hB] at h
                  cases w with
                  | error e => simp at h
                  | ok q =>
                    obtain ⟨right, ei⟩ := q
                    have hwr : right.repeat_wf = true := ihOr s ni right ei hB
                    simp only [Option.some.injEq, Except.ok.injEq, Prod.mk.injEq] at h
                    rw [← h.1]
                    simp [Re.repeat_wf, hwl, hwr]
    · -- parse_postfix
      intro s i r j h
      simp only [ parse_postfix] at h
      cases hA : parse_atom n s i with
      | none => rw [hA] at h; simp at h
      | some v =>
        rw [hA] at h
        cases v with
        | error e => simp at h
        | ok p =>
          obtain ⟨reg, ni⟩ := p
          have hwl : reg.repeat_wf = true := ihAtom s i reg ni hA
          simp only at h
          split at h
          · simp only [Option.some.injEq, Except.ok.injEq, Prod.mk.injEq] at h
            rw [← h.1]; exact hwl
          · split at h
            · simp only [Option.some.injEq, Except.ok.injEq, Prod.mk.injEq] at h
              rw [← h.1]; simp [Re.repeat_wf, hwl]
            · split at h
              · simp only [Option.some.injEq, Except.ok.injEq, Prod.mk.injEq] at h
                rw [← h.1]; simp [Re.repeat_wf, hwl]
              · split at h
                · cases hN : parse_number s (ni + 1) with
                  | none => rw [hN] at h; simp at h
                  | some q =>
                    rw [hN] at h
                    obtain ⟨left, al⟩ := q
                    simp only at h
                    split at h
                    · simp at h
                    · cases hM : parse_number s (al + 1) with
                      | none => rw [hM] at h; simp at h
                      | some q2 =>
                        rw [hM] at h
                        obtain ⟨right, ar⟩ := q2
                        simp only at h
                        split at h
                        · simp at h
                        · rename_i hrange
                          split at h
                          · simp at h
                          · simp only [Option.some.injEq, Except.ok.injEq,
                              Prod.mk.injEq] at h
                            rw [← h.1]
                            simp only [Re.repeat_wf, Bool.and_eq_true, decide_eq_true_eq]
                            exact ⟨by omega, hwl⟩
                · simp only [Option.some.injEq, Except.ok.injEq, Prod.mk.injEq] at h
                  rw [← h.1]; exact hwl
    · -- parse_atom
      intro s i r j h
      simp only [parse_atom] at h
      split at h
      · simp at h
      · split at h
        · simp only [Option.some.injEq, Except.ok.injEq, Prod.mk.injEq] at h
          rw [← h.1]; simp [Re.repeat_wf]
        · split at h
          · simp only [Option.some.injEq, Except.ok.injEq, Prod.mk.injEq] at h
            rw [← h.1]; simp [Re.repeat_wf]
          · split at h
            · exact ihOr s (i + 1) r j h
            · simp at h

/-! ### `first_non_ascii` lemmas -/

theorem first_non_ascii_from_eq_some :
    ∀ (s : List Nat) (off k : Nat), k < s.length →
    (∀ j, j < k → s.getD j 0 < 128) → 128 ≤ s.getD k 0 →
    first_non_ascii_from s off = some (off + k) := by
  intro s
  induction s with
  | nil => intro off k hk; simp at hk
  | cons b rest ihs =>
    intro off k hk hbefore hat
    cases k with
    | zero =>
      simp only [List.getD_cons_zero] at hat
      simp [first_non_ascii_from, show ¬ (b < 128) by omega]
    | succ k' =>
      have hb : b < 128 := by
        have := hbefore 0 (by omega)
        simpa using this
      rw [first_non_ascii_from, if_pos hb]
      have := ihs (off + 1) k' (by simpa using hk)
        (fun j hj => by have := hbefore (j + 1) (by omega); simpa using this)
        (by simpa using hat)
      rw [this]
      congr 1
      omega

theorem first_non_ascii_from_eq_none :
    ∀ (s : List Nat) (off : Nat), (∀ b ∈ s, b < 128) →
    first_non_ascii_from s off = none := by
  intro s
  induction s with
  | nil => intro off _; rfl
  | cons b rest ihs =>
    intro off hall
    rw [first_non_ascii_from, if_pos (hall b (by simp))]
    exact ihs (off + 1) (fun x hx => hall x (by simp [hx]))

theorem first_non_ascii_eq_none {s : List Nat} (h : ∀ b ∈ s, b < 128) :
    first_non_ascii s = none :=
  first_non_ascii_from_eq_none s 0 h

/-! ### Claim theorems -/

/-- Claim C1, counterexample: `parse_regexp "ab|c"` does not yield
`Or(And(Char a, Char b), Char c)`; it yields `And(Char a, Or(Char b, Char c))`,
a different tree. -/
theorem claim_C1_counterexample :
    Re.parse_regexp (strBytes "ab|c") =
      .ok (.And (.Char 'a') (.Or (.Char 'b') (.Char 'c'))) ∧
    Re.And (.Char 'a') (.Or (.Char 'b') (.Char 'c')) ≠
      Re.Or (.And (.Char 'a') (.Char 'b')) (.Char 'c') :=
  ⟨rfl, by decide⟩

/-- Claim C1, amended: when an implicit concatenation is followed by more
input (neither `)` nor `|`), `parse_and` parses the entire remainder with a
recursive `parse_or` call and uses that whole alternation as the right
operand, so alternation groups to the right of the concatenation point; in
particular `parse_regexp "ab|c"` yields
`Concatenation(Literal a, Alternation(Literal b, Literal c))`. -/
theorem claim_C1 :
    (∀ fuel s i left ni right k,
      parse_postfix fuel s i = some (.ok (left, ni)) → ni < s.length →
      s.getD ni 0 ≠ 41 → s.getD ni 0 ≠ 124 →
      parse_or fuel s ni = some (.ok (right, k)) →
      parse_and (fuel + 1) s i = some (.ok (.And left right, k))) ∧
    Re.parse_regexp (strBytes "ab|c") =
      .ok (.And (.Char 'a') (.Or (.Char 'b') (.Char 'c'))) := by
  constructor
  · intro fuel s i left ni right k hP hni hnp hnb hO
    simp only [parse_and, hP]
    rw [if_neg (by omega), if_neg hnp, if_neg hnb, hO]
  · rfl

/-- Witness for C1's amended theorem at the input `"ab|c"`. -/
theorem claim_C1_witness :
    parse_and 6 (strBytes "ab|c") 0 =
      some (.ok (.And (.Char 'a') (.Or (.Char 'b') (.Char 'c')), 4)) :=
  claim_C1.1 5 (strBytes "ab|c") 0 (.Char 'a') 1
    (.Or (.Char 'b') (.Char 'c')) 4 rfl (by decide) (by decide) (by decide) rfl

/-- Claim C2: an input whose first non-ASCII byte (`128 ≤ byte`) sits at
offset `k` is rejected with `NonAsciiChar` at `k`, before any grammar
parsing:  the conclusion holds whatever `parse_or` would do. -/
theorem claim_C2 (s : List Nat) (k : Nat) (hk : k < s.length)
    (hbefore : ∀ j, j < k → s.getD j 0 < 128) (hat : 128 ≤ s.getD k 0) :
    Re.parse_regexp s = .error (.NonAsciiChar, ⟨k, ""⟩) := by
  have h : first_non_ascii s = some k := by
    have := first_non_ascii_from_eq_some s 0 k hk hbefore hat
    simpa [first_non_ascii] using this
  simp only [Re.parse_regexp, h]

/-- Witness for C2 at the bytes `[97, 200, 98]` (non-ASCII byte at offset 1). -/
theorem claim_C2_witness :
    Re.parse_regexp [97, 200, 98] = .error (.NonAsciiChar, ⟨1, ""⟩) :=
  claim_C2 [97, 200, 98] 1 (by decide)
    (fun j hj => by
      have : j = 0 := by omega
      subst this; decide)
    (by decide)

/-- Claim C4: `parse_regexp "(a|b)*a"` yields
`Concatenation(Star(Alternation(Literal a, Literal b)), Literal a)`. -/
theorem claim_C4 :
    Re.parse_regexp (strBytes "(a|b)*a") =
      .ok (.And (.Kleen (.Or (.Char 'a') (.Char 'b'))) (.Char 'a')) :=
  rfl

/-- Claim C5: (1) whenever the ASCII scan passes and the top-level
alternation parse succeeds, `parse_regexp` returns `Ok` with that tree,
discarding the final cursor; (2) concretely, `"a)b"` parses to `Literal a`
with final cursor 2, short of the length 3; (3) `parse_regexp` never
returns a `BadSplit` error, on any input. -/
theorem claim_C5 :
    (∀ s r j, first_non_ascii s = none →
      parse_or (parseFuel s) s 0 = some (.ok (r, j)) →
      Re.parse_regexp s = .ok r) ∧
    (Re.parse_regexp (strBytes "a)b") = .ok (.Char 'a') ∧
      parse_or (parseFuel (strBytes "a)b")) (strBytes "a)b") 0 =
        some (.ok (.Char 'a', 2)) ∧
      2 < (strBytes "a)b").length) ∧
    (∀ s e, Re.parse_regexp s = .error e → e.1 ≠ .BadSplit) := by
  refine ⟨?_, ⟨rfl, rfl, by decide⟩, ?_⟩
  · intro s r j hF hP
    simp only [Re.parse_regexp, hF, hP]
  · intro s e h
    unfold Re.parse_regexp at h
    cases hF : first_non_ascii s with
    | some k =>
      rw [hF] at h
      simp only [Except.error.injEq] at h
      rw [← h]
      simp
    | none =>
      rw [hF] at h
      cases hP : parse_or (parseFuel s) s 0 with
      | none =>
        rw [hP] at h
        simp only [Except.error.injEq] at h
        rw [← h]
        simp
      | some v =>
        rw [hP] at h
        cases v with
        | error e2 =>
          simp only [Except.error.injEq] at h
          exact h ▸ (parse_no_BadSplit (parseFuel s)).1 s 0 e2 hP
        | ok p =>
          obtain ⟨r, j⟩ := p
          simp at h

/-- Witness for C5 part 1 at the input `"a"`. -/
theorem claim_C5_witness :
    Re.parse_regexp (strBytes "a") = .ok (.Char 'a') :=
  claim_C5.1 (strBytes "a") (.Char 'a') 1 rfl rfl

/-- Claim C6: every tree returned by a successful `parse_regexp` satisfies
the `Repeat` invariant `min ≤ max` at every `Repeat` node. -/
theorem claim_C6 (s : List Nat) (r : Re) (h : Re.parse_regexp s = .ok r) :
    r.repeat_wf = true := by
  unfold Re.parse_regexp at h
  cases hF : first_non_ascii s with
  | some k => rw [hF] at h; simp at h
  | none =>
    rw [hF] at h
    cases hP : parse_or (parseFuel s) s 0 with
    | none => rw [hP] at h; simp at h
    | some v =>
      rw [hP] at h
      cases v with
      | error e => simp at h
      | ok p =>
        obtain ⟨reg, j⟩ := p
        simp only [Except.ok.injEq] at h
        exact h ▸ (parse_repeat_wf (parseFuel s)).1 s 0 reg j hP

/-- Witness for C6 at the input `"a{2,5}"`. -/
theorem claim_C6_witness :
    (Re.Repeat (.Char 'a') 2 5).repeat_wf = true :=
  claim_C6 (strBytes "a{2,5}") (.Repeat (.Char 'a') 2 5) rfl

/-- Claim C9: the empty input fails with `OutOfRange` at offset 0, and, in
general, `parse_atom` with its cursor at or past the end of input fails with
`OutOfRange` at that cursor position. -/
theorem claim_C9 :
    Re.parse_regexp [] = .error (.OutOfRange, ⟨0, "Expected an atom"⟩) ∧
    (∀ fuel s i, s.length ≤ i →
      parse_atom (fuel + 1) s i =
        some (.error (.OutOfRange, ⟨i, "Expected an atom"⟩))) := by
  constructor
  · rfl
  · intro fuel s i hi
    simp only [parse_atom]
    rw [if_pos hi]

/-- Witness for C9's general part: a cursor past the end of `[97]`. -/
theorem claim_C9_witness :
    parse_atom 1 [97] 5 = some (.error (.OutOfRange, ⟨5, "Expected an atom"⟩)) :=
  claim_C9.2 0 [97] 5 (by decide)

/-- Claim C10: unbalanced parentheses are accepted: `parse_regexp "(a"`
succeeds and yields `Literal a`. -/
theorem claim_C10 :
    Re.parse_regexp (strBytes "(a") = .ok (.Char 'a') :=
  rfl

/-- Claim C3: the bounded-repeat protocol after an atom and a left brace,
stated generally over `parse_postfix` (each branch of the protocol), plus
the concrete behaviors of `parse_regexp` on `"a{2,5}"`, `"a{5,2}"`,
`"a{2,5"`, `"a{2 5}"`, and the missing/overflowing digit-run cases. -/
theorem claim_C3 :
    (∀ fuel s i r j, parse_atom fuel s i = some (.ok (r, j)) → j < s.length →
      s.getD j 0 = 123 →
      ((parse_number s (j + 1) = none →
        parse_postfix (fuel + 1) s i =
          some (.error (.InvalidInt, ⟨j + 1, "Expected a positive integer"⟩))) ∧
      (∀ a al, parse_number s (j + 1) = some (a, al) →
        s.length ≤ al ∨ s.getD al 0 ≠ 44 →
        parse_postfix (fuel + 1) s i =
          some (.error (.OutOfRange,
            ⟨j, "Expected a ',' for postfix [reg]\x7ba,b\x7d"⟩))) ∧
      (∀ a al, parse_number s (j + 1) = some (a, al) → al < s.length →
        s.getD al 0 = 44 → parse_number s (al + 1) = none →
        parse_postfix (fuel + 1) s i =
          some (.error (.InvalidInt, ⟨al, "Expected a positive integer"⟩))) ∧
      (∀ a al b ar, parse_number s (j + 1) = some (a, al) → al < s.length →
        s.getD al 0 = 44 → parse_number s (al + 1) = some (b, ar) → b < a →
        parse_postfix (fuel + 1) s i =
          some (.error (.InvalidRange,
            ⟨j, "left number should be lower than or equal to the right one"⟩))) ∧
      (∀ a al b ar, parse_number s (j + 1) = some (a, al) → al < s.length →
        s.getD al 0 = 44 → parse_number s (al + 1) = some (b, ar) → a ≤ b →
        s.length ≤ ar ∨ s.getD ar 0 ≠ 125 →
        parse_postfix (fuel + 1) s i =
          some (.error (.InvalidChar, ⟨al, "Expected a '\x7d'"⟩))) ∧
      (∀ a al b ar, parse_number s (j + 1) = some (a, al) → al < s.length →
        s.getD al 0 = 44 → parse_number s (al + 1) = some (b, ar) → a ≤ b →
        ar < s.length → s.getD ar 0 = 125 →
        parse_postfix (fuel + 1) s i = some (.ok (.Repeat r a b, ar + 1))))) ∧
    Re.parse_regexp (strBytes "a{2,5}") = .ok (.Repeat (.Char 'a') 2 5) ∧
    Re.parse_regexp (strBytes "a{5,2}") =
      .error (.InvalidRange,
        ⟨1, "left number should be lower than or equal to the right one"⟩) ∧
    Re.parse_regexp (strBytes "a\x7b2,5") =
      .error (.InvalidChar, ⟨3, "Expected a '\x7d'"⟩) ∧
    Re.parse_regexp (strBytes "a{2 5}") =
      .error (.OutOfRange, ⟨1, "Expected a ',' for postfix [reg]\x7ba,b\x7d"⟩) ∧
    Re.parse_regexp (strBytes "a{,5}") =
      .error (.InvalidInt, ⟨2, "Expected a positive integer"⟩) ∧
    Re.parse_regexp (strBytes "a{2,}") =
      .error (.InvalidInt, ⟨3, "Expected a positive integer"⟩) ∧
    Re.parse_regexp (strBytes "a{2,99999999999999999999}") =
      .error (.InvalidInt, ⟨3, "Expected a positive integer"⟩) := by
  refine ⟨?_, rfl, rfl, rfl, rfl, rfl, rfl, rfl⟩
  intro fuel s i r j hA hj hbrace
  have hstart : ∀ X : Option (Except ReError (Re × Nat)),
      parse_postfix (fuel + 1) s i = X ↔
      (match parse_number s (j + 1) with
        | none => some (.error (.InvalidInt, ⟨j + 1, "Expected a positive integer"⟩))
        | some (left, after_left_id) =>
          if s.length ≤ after_left_id ∨ s.getD after_left_id 0 ≠ 44 then
            some (.error (.OutOfRange,
              ⟨j, "Expected a ',' for postfix [reg]\x7ba,b\x7d"⟩))
          else
            match parse_number s (after_left_id + 1) with
            | none => some (.error (.InvalidInt,
                ⟨after_left_id, "Expected a positive integer"⟩))
            | some (right, after_right_id) =>
              if right < left then
                some (.error (.InvalidRange,
                  ⟨j, "left number should be lower than or equal to the right one"⟩))
              else if s.length ≤ after_right_id ∨ s.getD after_right_id 0 ≠ 125 then
                some (.error (.InvalidChar, ⟨after_left_id, "Expected a '\x7d'"⟩))
              else
                some (.ok (.Repeat r left right, after_right_id + 1))) = X := by
    intro X
    simp only [ parse_postfix, hA]
    rw [if_neg (by omega), hbrace]
    norm_num
  refine ⟨?_, ?_, ?_, ?_, ?_, ?_⟩
  · intro hN
    rw [hstart]
    simp only [hN]
  · intro a al hN hcond
    rw [hstart]
    simp only [hN]
    rw [if_pos hcond]
  · intro a al hN hal h44 hM
    rw [hstart]
    simp only [hN]
    rw [if_neg (by push_neg; exact ⟨by omega, h44⟩)]
    simp only [hM]
  · intro a al b ar hN hal h44 hM hba
    rw [hstart]
    simp only [hN]
    rw [if_neg (by push_neg; exact ⟨by omega, h44⟩)]
    simp only [hM]
    rw [if_pos hba]
  · intro a al b ar hN hal h44 hM hab hcond
    rw [hstart]
    simp only [hN]
    rw [if_neg (by push_neg; exact ⟨by omega, h44⟩)]
    simp only [hM]
    rw [if_neg (by omega), if_pos hcond]
  · intro a al b ar hN hal h44 hM hab har h125
    rw [hstart]
    simp only [hN]
    rw [if_neg (by push_neg; exact ⟨by omega, h44⟩)]
    simp only [hM]
    rw [if_neg (by omega), if_neg (by push_neg; exact ⟨by omega, h125⟩)]

/-- Witness for C3's general protocol, at the input `"a{2,5}"`: the atom is
`Literal a` ending at 1, the brace follows, both numbers parse, `2 ≤ 5`, and
the closing brace is present, so the result is `Repeat(Literal a, 2, 5)`
with the cursor past the brace. -/
theorem claim_C3_witness :
    parse_postfix 2 (strBytes "a{2,5}") 0 =
      some (.ok (.Repeat (.Char 'a') 2 5, 6)) :=
  (claim_C3.1 1 (strBytes "a{2,5}") 0 (.Char 'a') 1 rfl (by decide)
    rfl).2.2.2.2.2 2 3 5 5 rfl (by decide) rfl rfl (by decide) (by decide) rfl

/-- Structural equality agrees with value equality of the embedded trees. -/
theorem is_equal_iff : ∀ r₁ r₂ : Re, r₁.is_equal r₂ = true ↔ r₁ = r₂ := by
  intro r₁
  induction r₁ with
  | Char c => intro r₂; cases r₂ <;> simp [Re.is_equal]
  | Or l r ihl ihr => intro r₂; cases r₂ <;> simp [Re.is_equal, ihl, ihr]
  | And l r ihl ihr => intro r₂; cases r₂ <;> simp [Re.is_equal, ihl, ihr]
  | Kleen c ihc => intro r₂; cases r₂ <;> simp [Re.is_equal, ihc]
  | OneOrMore c ihc => intro r₂; cases r₂ <;> simp [Re.is_equal, ihc]
  | Repeat c a b ihc => intro r₂; cases r₂ <;> simp [Re.is_equal, ihc, and_assoc]
  | AnyChar => intro r₂; cases r₂ <;> simp [Re.is_equal]

/-- Claim C7: `is_equal` is reflexive and symmetric, coincides with value
equality (so it cannot depend on sharing identity: equal values always
compare equal), two successful parses of the same input are `is_equal`, and
`AnyChar` is never equal to `Kleen` of anything (in particular not to
`Star(AnyChar)`). -/
theorem claim_C7 :
    (∀ r : Re, r.is_equal r = true) ∧
    (∀ r₁ r₂ : Re, r₁.is_equal r₂ = r₂.is_equal r₁) ∧
    (∀ r₁ r₂ : Re, r₁.is_equal r₂ = true ↔ r₁ = r₂) ∧
    (∀ s r₁ r₂, Re.parse_regexp s = .ok r₁ → Re.parse_regexp s = .ok r₂ →
      r₁.is_equal r₂ = true) ∧
    (∀ r : Re, Re.AnyChar.is_equal (.Kleen r) = false) := by
  refine ⟨?_, ?_, is_equal_iff, ?_, ?_⟩
  · intro r
    exact (is_equal_iff r r).mpr rfl
  · intro r₁ r₂
    by_cases h : r₁ = r₂
    · subst h; rfl
    · cases hb1 : r₁.is_equal r₂ with
      | true => exact absurd ((is_equal_iff _ _).mp hb1) h
      | false =>
        cases hb2 : r₂.is_equal r₁ with
        | true => exact absurd ((is_equal_iff _ _).mp hb2).symm h
        | false => rfl
  · intro s r₁ r₂ h1 h2
    rw [h1] at h2
    simp only [Except.ok.injEq] at h2
    exact (is_equal_iff _ _).mpr h2
  · intro r
    rfl

/-- Witness for C7's parse-twice part at the input `"a"`. -/
theorem claim_C7_witness :
    (Re.Char 'a').is_equal (.Char 'a') = true :=
  claim_C7.2.2.2.1 (strBytes "a") (.Char 'a') (.Char 'a') rfl rfl

/-! ### Decimal printing round-trips through `parse_number` -/

theorem natToDecBytesAux_foldl : ∀ (fuel n a : Nat), n ≤ fuel →
    (natToDecBytesAux fuel n).foldl (fun x d => x * 10 + (d - 48)) a =
      a * 10 ^ (natToDecBytesAux fuel n).length + n := by
  intro fuel
  induction fuel with
  | zero =>
    intro n a hn
    have : n = 0 := by omega
    subst this
    simp [natToDecBytesAux]
  | succ f ih =>
    intro n a hn
    by_cases h0 : n = 0
    · subst h0; simp [natToDecBytesAux]
    · simp only [natToDecBytesAux, if_neg h0]
      rw [List.foldl_append, List.length_append]
      simp only [List.foldl_cons, List.foldl_nil, List.length_cons, List.length_nil]
      have hdiv : n / 10 ≤ f := by
        have : n / 10 < n := Nat.div_lt_self (by omega) (by omega)
        omega
      rw [ih (n / 10) a hdiv]
      have hmod : n % 10 + 48 - 48 = n % 10 := by omega
      rw [hmod]
      have h10 : n / 10 * 10 + n % 10 = n := by omega
      calc (a * 10 ^ (natToDecBytesAux f (n / 10)).length + n / 10) * 10 + n % 10
          = a * (10 ^ (natToDecBytesAux f (n / 10)).length * 10) +
              (n / 10 * 10 + n % 10) := by ring
        _ = a * 10 ^ ((natToDecBytesAux f (n / 10)).length + (0 + 1)) + n := by
              rw [h10]; ring_nf
  
theorem decValue_natToDecBytes (n : Nat) : decValue (natToDecBytes n) = n := by
  unfold natToDecBytes decValue
  split
  · rename_i h; subst h; decide
  · have := natToDecBytesAux_foldl n n 0 le_rfl
    simpa using this

theorem natToDecBytesAux_digits :
    ∀ fuel n, ∀ d ∈ natToDecBytesAux fuel n, 48 ≤ d ∧ d ≤ 57 := by
  intro fuel
  induction fuel with
  | zero => intro n d hd; simp [natToDecBytesAux] at hd
  | succ f ih =>
    intro n d hd
    simp only [natToDecBytesAux] at hd
    split at hd
    · simp at hd
    · rw [List.mem_append] at hd
      cases hd with
      | inl hmem => exact ih (n / 10) d hmem
      | inr hmem =>
        simp only [List.mem_singleton] at hmem
        have : n % 10 < 10 := Nat.mod_lt _ (by omega)
        omega

theorem natToDecBytes_digits (n : Nat) : ∀ d ∈ natToDecBytes n, 48 ≤ d ∧ d ≤ 57 := by
  intro d hd
  unfold natToDecBytes at hd
  split at hd
  · simp at hd; omega
  · exact natToDecBytesAux_digits n n d hd

theorem natToDecBytes_ne_nil (n : Nat) : natToDecBytes n ≠ [] := by
  unfold natToDecBytes
  split
  · simp
  · rename_i h0
    cases hn : n with
    | zero => exact absurd hn h0
    | succ f =>
      simp only [natToDecBytesAux]
      rw [if_neg (hn ▸ h0)]
      simp

theorem natToDecBytes_length_pos (n : Nat) : 1 ≤ (natToDecBytes n).length := by
  cases h : natToDecBytes n with
  | nil => exact absurd h (natToDecBytes_ne_nil n)
  | cons a l => simp

theorem numRunAux_append (ds rest : List Nat)
    (hds : ∀ d ∈ ds, 48 ≤ d ∧ d ≤ 57)
    (hrest : ∀ b, rest.head? = some b → ¬(48 ≤ b ∧ b ≤ 57)) :
    numRunAux (ds ++ rest) = ds := by
  induction ds with
  | nil =>
    simp only [List.nil_append]
    cases rest with
    | nil => rfl
    | cons b r =>
      simp only [numRunAux]
      rw [if_neg (hrest b rfl)]
  | cons d ds' ih =>
    simp only [List.cons_append, numRunAux]
    rw [if_pos (hds d (by simp))]
    congr 1
    show numRunAux (ds' ++ rest) = ds'
    exact ih (fun x hx => hds x (by simp [hx]))

/-- `parse_number` at the start of a printed number reads back exactly that
number and stops right after its digits. -/
theorem parse_number_at (pre rest : List Nat) (m : Nat) (hm : m ≤ usizeMax)
    (hrest : ∀ b, rest.head? = some b → ¬(48 ≤ b ∧ b ≤ 57)) :
    parse_number (pre ++ (natToDecBytes m ++ rest)) pre.length =
      some (m, pre.length + (natToDecBytes m).length) := by
  have hrun : numRun (pre ++ (natToDecBytes m ++ rest)) pre.length = natToDecBytes m := by
    unfold numRun
    rw [List.drop_left]
    exact numRunAux_append _ _ (natToDecBytes_digits m) hrest
  unfold parse_number
  rw [hrun, if_neg (natToDecBytes_ne_nil m), decValue_natToDecBytes,
    if_neg (by omega)]

/-- Re-parsing the canonical print of `Repeat(Literal a, m, n)` (for
`m ≤ n ≤ usizeMax`) yields exactly that tree. -/
theorem reprint_repeat_aux (m n : Nat) (hmn : m ≤ n) (hn : n ≤ usizeMax) :
    Re.parse_regexp
      ([40, 97, 41, 123] ++ (natToDecBytes m ++ (44 :: (natToDecBytes n ++ [125])))) =
      .ok (.Repeat (.Char 'a') m n) := by
  set t : List Nat :=
    [40, 97, 41, 123] ++ (natToDecBytes m ++ (44 :: (natToDecBytes n ++ [125]))) with ht
  have hLm : 1 ≤ (natToDecBytes m).length := natToDecBytes_length_pos m
  have hLn : 1 ≤ (natToDecBytes n).length := natToDecBytes_length_pos n
  have hlen : t.length = (natToDecBytes m).length + (natToDecBytes n).length + 6 := by
    rw [ht]; simp [List.length_append]; omega
  have hg0 : t.getD 0 0 = 40 := by
    rw [ht, List.getD_append _ _ _ _ (by norm_num)]
    decide
  have hg1 : t.getD 1 0 = 97 := by
    rw [ht, List.getD_append _ _ _ _ (by norm_num)]
    decide
  have hg2 : t.getD 2 0 = 41 := by
    rw [ht, List.getD_append _ _ _ _ (by norm_num)]
    decide
  have hg3 : t.getD 3 0 = 123 := by
    rw [ht, List.getD_append _ _ _ _ (by norm_num)]
    decide
  have hnum1 : parse_number t 4 =
      some (m, 4 + (natToDecBytes m).length) := by
    have h1 := parse_number_at [40, 97, 41, 123] (44 :: (natToDecBytes n ++ [125])) m
      (le_trans hmn hn)
      (by intro b hb; simp only [List.head?_cons, Option.some.injEq] at hb; omega)
    simpa using h1
  have hlist2 : ([40, 97, 41, 123] ++ natToDecBytes m ++ [44]) ++
      (natToDecBytes n ++ [125]) = t := by
    rw [ht]; simp
  have hnum2 : parse_number t (4 + (natToDecBytes m).length + 1) =
      some (n, 4 + (natToDecBytes m).length + 1 + (natToDecBytes n).length) := by
    have h2 := parse_number_at ([40, 97, 41, 123] ++ natToDecBytes m ++ [44]) [125] n hn
      (by intro b hb; simp only [List.head?_cons, Option.some.injEq] at hb; omega)
    have hidx : ([40, 97, 41, 123] ++ natToDecBytes m ++ [44]).length =
        4 + (natToDecBytes m).length + 1 := by
      simp [List.length_append]; omega
    rw [hlist2, hidx] at h2
    exact h2
  have hlist1 : ([40, 97, 41, 123] ++ natToDecBytes m) ++
      (44 :: (natToDecBytes n ++ [125])) = t := by
    rw [ht]; simp
  have hg_e1 : t.getD (4 + (natToDecBytes m).length) 0 = 44 := by
    rw [← hlist1]
    have hplen : ([40, 97, 41, 123] ++ natToDecBytes m).length =
        4 + (natToDecBytes m).length := by
      simp [List.length_append]; omega
    rw [List.getD_append_right _ _ _ _ hplen.le, hplen, Nat.sub_self]
    rfl
  have hlist3 : ([40, 97, 41, 123] ++ natToDecBytes m ++ [44] ++ natToDecBytes n) ++
      [125] = t := by
    rw [ht]; simp
  have hg_e2 :
      t.getD (4 + (natToDecBytes m).length + 1 + (natToDecBytes n).length) 0 = 125 := by
    rw [← hlist3]
    have hplen : ([40, 97, 41, 123] ++ natToDecBytes m ++ [44] ++ natToDecBytes n).length =
        4 + (natToDecBytes m).length + 1 + (natToDecBytes n).length := by
      simp [List.length_append]; omega
    rw [List.getD_append_right _ _ _ _ hplen.le, hplen, Nat.sub_self]
    rfl
  have h_atom1 : ∀ k, parse_atom (k + 1) t 1 = some (.ok (.Char 'a', 2)) := by
    intro k
    simp only [parse_atom]
    rw [if_neg (by omega : ¬ t.length ≤ 1), hg1]
    rw [if_pos (by norm_num)]
  have h_post1 : ∀ k, parse_postfix (k + 2) t 1 = some (.ok (.Char 'a', 2)) := by
    intro k
    show parse_postfix ((k + 1) + 1) t 1 = _
    simp only [ parse_postfix, h_atom1]
    rw [if_neg (by omega : ¬ t.length ≤ 2), hg2]
    norm_num
  have h_and1 : ∀ k, parse_and (k + 3) t 1 = some (.ok (.Char 'a', 3)) := by
    intro k
    show parse_and ((k + 2) + 1) t 1 = _
    simp only [parse_and, h_post1]
    rw [if_neg (by omega : ¬ t.length ≤ 2), hg2]
    norm_num
  have h_or1 : ∀ k, parse_or (k + 4) t 1 = some (.ok (.Char 'a', 3)) := by
    intro k
    show parse_or ((k + 3) + 1) t 1 = _
    simp only [parse_or, h_and1]
    rw [if_pos (by omega : 3 < t.length), hg3]
    norm_num
  have h_atom0 : ∀ k, parse_atom (k + 5) t 0 = some (.ok (.Char 'a', 3)) := by
    intro k
    show parse_atom ((k + 4) + 1) t 0 = _
    simp only [parse_atom]
    rw [if_neg (by omega : ¬ t.length ≤ 0), hg0]
    rw [if_neg (by norm_num), if_neg (by norm_num), if_pos rfl]
    exact h_or1 k
  have h_post0 : ∀ k, parse_postfix (k + 6) t 0 =
      some (.ok (.Repeat (.Char 'a') m n,
        4 + (natToDecBytes m).length + 1 + (natToDecBytes n).length + 1)) := by
    intro k
    show parse_postfix ((k + 5) + 1) t 0 = _
    simp only [ parse_postfix, h_atom0]
    rw [if_neg (by omega : ¬ t.length ≤ 3), hg3]
    rw [if_neg (by norm_num), if_neg (by norm_num), if_pos rfl]
    rw [show (3 : Nat) + 1 = 4 from rfl]
    simp only [hnum1]
    rw [if_neg (by push_neg; exact ⟨by omega, hg_e1⟩)]
    simp only [hnum2]
    rw [if_neg (by omega : ¬ n < m)]
    rw [if_neg (by push_neg; exact ⟨by omega, hg_e2⟩)]
  have h_and0 : ∀ k, parse_and (k + 7) t 0 =
      some (.ok (.Repeat (.Char 'a') m n,
        4 + (natToDecBytes m).length + 1 + (natToDecBytes n).length + 1)) := by
    intro k
    show parse_and ((k + 6) + 1) t 0 = _
    simp only [parse_and, h_post0]
    rw [if_pos (by omega)]
  have h_or0 : ∀ k, parse_or (k + 8) t 0 =
      some (.ok (.Repeat (.Char 'a') m n,
        4 + (natToDecBytes m).length + 1 + (natToDecBytes n).length + 1)) := by
    intro k
    show parse_or ((k + 7) + 1) t 0 = _
    simp only [parse_or, h_and0]
    rw [if_neg (by omega)]
  have hascii : first_non_ascii t = none := by
    apply first_non_ascii_eq_none
    intro b hb
    rw [ht] at hb
    simp only [List.mem_append, List.mem_cons, List.mem_singleton,
      List.not_mem_nil, or_false] at hb
    rcases hb with (h | h | h | h) | h | h | h | h
    · omega
    · omega
    · omega
    · omega
    · have := natToDecBytes_digits m b h; omega
    · omega
    · have := natToDecBytes_digits n b h; omega
    · omega
  have hfuel : parseFuel t = (4 * t.length - 4) + 8 := by
    unfold parseFuel; omega
  simp only [Re.parse_regexp, hascii, hfuel, h_or0]

/-- Claim C8, counterexample: printing
`Alternation(Alternation(Literal a, Literal b), Literal c)` gives
`((a|b)|c)`; re-parsing that succeeds but yields
`Alternation(Literal a, Alternation(Literal b, Literal c))`, whose print
`(a|(b|c))` differs — so print-reparse-print is not the identity on printed
output. -/
theorem claim_C8_counterexample :
    Re.parse_regexp ((Re.Or (.Or (.Char 'a') (.Char 'b')) (.Char 'c')).debug_print) =
      .ok (.Or (.Char 'a') (.Or (.Char 'b') (.Char 'c'))) ∧
    (Re.Or (.Char 'a') (.Or (.Char 'b') (.Char 'c'))).debug_print ≠
      (Re.Or (.Or (.Char 'a') (.Char 'b')) (.Char 'c')).debug_print :=
  ⟨rfl, by decide⟩

/-- Claim C8, amended: print-reparse-print reproduces the first print on
flat patterns: single atoms and single compound nodes over literal atoms —
including `Repeat(Literal a, m, n)` for every `m ≤ n ≤ usizeMax` — though
not on every `Pattern` (see the counterexample). -/
theorem claim_C8 (m n : Nat) (hmn : m ≤ n) (hn : n ≤ usizeMax) :
    Re.reprint (.Char 'a') = some ((Re.Char 'a').debug_print) ∧
    Re.reprint .AnyChar = some (Re.AnyChar.debug_print) ∧
    Re.reprint (.Or (.Char 'a') (.Char 'b')) =
      some ((Re.Or (.Char 'a') (.Char 'b')).debug_print) ∧
    Re.reprint (.And (.Char 'a') (.Char 'b')) =
      some ((Re.And (.Char 'a') (.Char 'b')).debug_print) ∧
    Re.reprint (.Kleen (.Char 'a')) = some ((Re.Kleen (.Char 'a')).debug_print) ∧
    Re.reprint (.OneOrMore (.Char 'a')) =
      some ((Re.OneOrMore (.Char 'a')).debug_print) ∧
    Re.reprint (.Repeat (.Char 'a') m n) =
      some ((Re.Repeat (.Char 'a') m n).debug_print) := by
  refine ⟨rfl, rfl, rfl, rfl, rfl, rfl, ?_⟩
  have hs : (Re.Repeat (.Char 'a') m n).debug_print =
      [40, 97, 41, 123] ++ (natToDecBytes m ++ (44 :: (natToDecBytes n ++ [125]))) := by
    simp [Re.debug_print]
  unfold Re.reprint
  rw [hs, reprint_repeat_aux m n hmn hn]
  exact congrArg some hs

/-- Witness for C8's amended theorem at `Repeat(Literal a, 2, 5)`. -/
theorem claim_C8_witness :
    Re.reprint (.Repeat (.Char 'a') 2 5) =
      some ((Re.Repeat (.Char 'a') 2 5).debug_print) :=
  (claim_C8 2 5 (by decide) (by decide)).2.2.2.2.2.2

/-- The fuel `Re.parse_regexp` uses never exhausts, so its fuel-exhaustion
branch is dead code. -/
theorem parse_regexp_fuel_ok (s : List Nat) : parse_or (parseFuel s) s 0 ≠ none :=
  (parse_fuel_sufficient (parseFuel s)).1 s 0 (by unfold parseFuel; omega)
